import Mathlib

/-!
Verification of the nova-renderer specification against a shallow embedding
of the repository's source.

Components embedded here:

* `BlockAlloc` — `src/memory/block_allocation_strategy.cpp`
  (`BlockAllocationStrategy::allocate` / `::free`): the doubly linked,
  offset-ordered block list is modelled as a Lean `List Block` in chain
  order from `head`; pointers held in `AllocationInfo::internal_data`
  are modelled by the unique block ids handed out by `make_new_block`.
* `ProcMesh` — `src/render_objects/procedural_mesh.cpp`
  (`ProceduralMesh::set_vertex_data` / `::set_index_data`), with the
  `NOVA_DEBUG` conditional compilation modelled by a `debugBuild` flag.
* `RenderGraph` — `src/nova_renderer.cpp`
  (`NovaRenderer::add_render_pass` / `::create_render_passes`): the
  attachment-validation loop, error recording, and the skip-on-error path.
* `Renderables` — `NovaRenderer::add_renderable_for_material`.
* `FrameLoop` — `NovaRenderer::execute_frame` frame counter and per-frame
  arena selection.
* `MeshIds` — `NovaRenderer::create_mesh` / `::create_procedural_mesh`
  mesh-id counter.
* `ResMgr` — `src/resource_management/resource_manager.cpp`
  (`ResourceManager::add_resource_root`).

All machine integers (`uint64_t`, `Bytes`) are modelled as `Nat`; none of
the operations verified here can overflow 64 bits on the inputs considered.
-/

namespace Nova

/-- Modelled from the spec: the `align` helper of the repository's
`util/memory_utils.hpp` (the header itself is not among the provided
sources).  Per §4.1 of the spec, "size is rounded up to the configured
alignment"; an alignment of zero leaves the value unchanged (the
`BlockAllocationStrategy` instances created by `ProceduralMesh` use
alignment `0_b`). -/
def align (value alignment : Nat) : Nat :=
  if alignment = 0 then value
  else alignment * ((value + alignment - 1) / alignment)

namespace BlockAlloc

/-- Modelled from the spec: the `Block` node of
`nova_renderer/memory/block_allocation_strategy.hpp` (header not among the
provided sources; §3 of the spec: "a `Block` is a node in a doubly linked,
offset-ordered free/used list for a fixed-size backing region").  A fresh
block is free; `id` stands in for the node's identity (the C++ code
addresses nodes by pointer). -/
structure Block where
  id : Nat
  free : Bool
  size : Nat
  offset : Nat
deriving DecidableEq

/-- The `AllocationInfo` out-parameter of `allocate` / in-parameter of
`free`; `internal_data` (a `Block*` in the C++) is modelled by the block id. -/
structure AllocationInfo where
  size : Nat
  offset : Nat
  internal_data : Nat
deriving DecidableEq

/-- The state of a `BlockAllocationStrategy`: `blocks` is the linked list
reachable from `head` in `next` order. -/
structure Strategy where
  memory_size : Nat
  alignment : Nat
  blocks : List Block
  allocated : Nat
  next_block_id : Nat
deriving DecidableEq

/-- `BlockAllocationStrategy::make_new_block`: a fresh free block with the
given offset and size, stamped with the current `next_block_id`. -/
def make_new_block (offset size nid : Nat) : Block :=
  { id := nid, free := true, size := size, offset := offset }

/-- The `BlockAllocationStrategy` constructor: one free block covering the
whole region, `allocated = 0`. -/
def mkStrategy (size alignment : Nat) : Strategy :=
  { memory_size := size
    alignment := alignment
    blocks := [make_new_block 0 size 0]
    allocated := 0
    next_block_id := 1 }

/-- The search loop of `allocate`: walk the list from `head` and stop at the
first free block whose size is at least the request (the C++ `best_fit`
loop breaks at the first candidate). -/
def findFirstFit (size : Nat) : List Block → Option Block
  | [] => none
  | b :: rest => if b.free ∧ size ≤ b.size then some b else findFirstFit size rest

/-- Linking a freshly made block directly after the block with id `tid`
(`block->next = best_fit->next; best_fit->next = block`). -/
def insertAfter (tid : Nat) (nb : Block) : List Block → List Block
  | [] => []
  | b :: rest => if b.id = tid then b :: nb :: rest else b :: insertAfter tid nb rest

/-- `BlockAllocationStrategy::allocate`.  Returns `(some info, s')` on
success and `(none, s)` on failure (the C++ returns `false` and leaves the
out-parameter and the strategy untouched).  Mirrors the source exactly:
on a split, the chosen block's `size` and `free` fields are left as they
were — only the remainder block is inserted after it. -/
def allocate (s : Strategy) (sizeReq : Nat) : Option AllocationInfo × Strategy :=
  let size := align sizeReq s.alignment
  let free_size := s.memory_size - s.allocated
  if free_size < size then (none, s)
  else
    match findFirstFit size s.blocks with
    | none => (none, s)
    | some best_fit =>
      let s1 :=
        if size < best_fit.size then
          { s with
            blocks := insertAfter best_fit.id
              (make_new_block (best_fit.offset + size) (best_fit.size - size) s.next_block_id)
              s.blocks
            next_block_id := s.next_block_id + 1 }
        else s
      (some { size := size, offset := best_fit.offset, internal_data := best_fit.id },
       { s1 with allocated := s1.allocated + size })

/-- The forward-merge step at the end of `BlockAllocationStrategy::free`:
`m` is the (possibly already backward-merged) current block, `l` the list
after it; if the next block is free it is absorbed into `m`. -/
def mergeForward (m : Block) : List Block → List Block
  | [] => [m]
  | d :: rest => if d.free then { m with size := m.size + d.size } :: rest else m :: d :: rest

/-- The block-list part of `BlockAllocationStrategy::free` applied to the
block with id `tid`: mark it free, merge it into its predecessor when that
predecessor is free, then absorb its successor when that successor is free
(backward merge first, then forward merge, operating on the merged block). -/
def freeMerge (tid : Nat) : List Block → List Block
  | [] => []
  | [b] => if b.id = tid then [{ b with free := true }] else [b]
  | b :: c :: rest =>
    if b.id = tid then
      mergeForward { b with free := true } (c :: rest)
    else if c.id = tid ∧ b.free then
      mergeForward { b with size := b.size + c.size } rest
    else
      b :: freeMerge tid (c :: rest)

/-- `BlockAllocationStrategy::free`: coalesce around the freed block and
subtract the allocation's size from `allocated`. -/
def free (s : Strategy) (alloc : AllocationInfo) : Strategy :=
  { s with
    blocks := freeMerge alloc.internal_data s.blocks
    allocated := s.allocated - alloc.size }

/-- Sum of the sizes of all blocks currently in the strategy's list. -/
def sumBlockSizes (s : Strategy) : Nat :=
  (s.blocks.map Block.size).sum

/-- The tiling predicate of §3 of the spec: starting at offset `o`, each
block sits exactly at the running offset and the blocks tile the region
contiguously. -/
def chain : Nat → List Block → Prop
  | _, [] => True
  | o, b :: rest => b.offset = o ∧ chain (o + b.size) rest

instance chainDecidable : ∀ (o : Nat) (l : List Block), Decidable (chain o l)
  | _, [] => .isTrue trivial
  | o, b :: rest =>
    have : Decidable (chain (o + b.size) rest) := chainDecidable (o + b.size) rest
    inferInstanceAs (Decidable (_ ∧ _))

theorem findFirstFit_eq_none (size : Nat) (l : List Block)
    (h : ∀ b ∈ l, b.free = true → b.size < size) :
    findFirstFit size l = none := by
  induction l with
  | nil => rfl
  | cons b rest ih =>
    simp only [findFirstFit]
    rw [if_neg]
    · exact ih fun c hc => h c (List.mem_cons_of_mem _ hc)
    · rintro ⟨hfree, hle⟩
      exact absurd hle (not_le.mpr (h b (List.mem_cons_self _ _) hfree))

/-- Claim C1 (code bug): the spec's invariant "sum of all block sizes ==
configured capacity, always" is broken by `BlockAllocationStrategy::allocate`
itself.  On a fresh strategy of capacity 1024 and alignment 64, a single
`allocate(64)` splits the initial 1024-byte free block, inserting a
960-byte remainder block while leaving the chosen block's `size` at 1024
(the source never shrinks `best_fit->size`, and never clears
`best_fit->free` either), so the block sizes sum to 1984 ≠ 1024 immediately
after the split. -/
theorem split_allocate_breaks_size_invariant :
    sumBlockSizes (allocate (mkStrategy 1024 64) 64).2 = 1984 ∧
    (mkStrategy 1024 64).memory_size = 1024 ∧ (1984 : Nat) ≠ 1024 := by
  decide

/-- Claim C3: if the request rounded up to the configured alignment exceeds
the free bytes (`memory_size - allocated`), or no single free block is
large enough, `BlockAllocationStrategy::allocate` fails and returns the
strategy state completely unchanged (block list, sizes, offsets, free
flags and the `allocated` counter). -/
theorem allocate_fail_no_mutation (s : Strategy) (sizeReq : Nat)
    (h : s.memory_size - s.allocated < align sizeReq s.alignment ∨
         ∀ b ∈ s.blocks, b.free = true → b.size < align sizeReq s.alignment) :
    allocate s sizeReq = (none, s) := by
  unfold allocate
  rcases h with h | h
  · simp [h]
  · by_cases hfs : s.memory_size - s.allocated < align sizeReq s.alignment
    · simp [hfs]
    · simp [hfs, findFirstFit_eq_none _ _ h]

/-- Witness for claim C3: a fresh 100-byte strategy refuses a 200-byte
request and is returned unchanged. -/
theorem allocate_fail_no_mutation_witness :
    allocate (mkStrategy 100 1) 200 = (none, mkStrategy 100 1) :=
  allocate_fail_no_mutation (mkStrategy 100 1) 200 (Or.inl (by decide))

/-- Whether a block is free and its byte range covers `[lo, hi)`. -/
def spans (lo hi : Nat) (b : Block) : Bool :=
  b.free && decide (b.offset ≤ lo) && decide (hi ≤ b.offset + b.size)

theorem freeMerge_head (t : Block) (tid : Nat) (l : List Block) (h : t.id = tid) :
    freeMerge tid (t :: l) = mergeForward { t with free := true } l := by
  cases l with
  | nil => simp [freeMerge, mergeForward, h]
  | cons c rest => simp [freeMerge, h]

theorem freeMerge_prev_free (p t : Block) (tid : Nat) (l : List Block)
    (hp : p.id ≠ tid) (ht : t.id = tid) (hfree : p.free = true) :
    freeMerge tid (p :: t :: l) = mergeForward { p with size := p.size + t.size } l := by
  simp [freeMerge, hp, ht, hfree]

theorem freeMerge_prev_used (p t : Block) (tid : Nat) (l : List Block)
    (hp : p.id ≠ tid) (ht : t.id = tid) (hfree : p.free = false) :
    freeMerge tid (p :: t :: l) = p :: mergeForward { t with free := true } l := by
  simp [freeMerge, hp, ht, hfree, freeMerge_head]

theorem freeMerge_append (tid : Nat) (pre : List Block) (b : Block) (l : List Block)
    (hpre : ∀ a ∈ pre, a.id ≠ tid) (hb : b.id ≠ tid) :
    freeMerge tid (pre ++ b :: l) = pre ++ freeMerge tid (b :: l) := by
  induction pre with
  | nil => rfl
  | cons a pre' ih =>
    have ha : a.id ≠ tid := hpre a (List.mem_cons_self _ _)
    have hpre' : ∀ c ∈ pre', c.id ≠ tid := fun c hc => hpre c (List.mem_cons_of_mem _ hc)
    cases pre' with
    | nil => simp [freeMerge, ha, hb]
    | cons c pre'' =>
      have hc : c.id ≠ tid := hpre' c (List.mem_cons_self _ _)
      calc freeMerge tid ((a :: c :: pre'') ++ b :: l)
          = a :: freeMerge tid ((c :: pre'') ++ b :: l) := by
            simp [freeMerge, ha, hc]
        _ = a :: ((c :: pre'') ++ freeMerge tid (b :: l)) := by rw [ih hpre']
        _ = (a :: c :: pre'') ++ freeMerge tid (b :: l) := rfl

theorem mergeForward_shape (m : Block) (l : List Block) :
    ∃ M tail, mergeForward m l = M :: tail ∧ M.free = m.free ∧ M.offset = m.offset ∧
      M.id = m.id ∧ m.size ≤ M.size := by
  cases l with
  | nil => exact ⟨m, [], rfl, rfl, rfl, rfl, le_refl _⟩
  | cons d rest =>
    by_cases hd : d.free = true
    · exact ⟨{ m with size := m.size + d.size }, rest, by simp [mergeForward, hd], rfl, rfl,
        rfl, Nat.le_add_right _ _⟩
    · exact ⟨m, d :: rest, by simp [mergeForward, hd], rfl, rfl, rfl, le_refl _⟩

theorem chain_mergeForward (o : Nat) (m : Block) (l : List Block) (h : chain o (m :: l)) :
    chain o (mergeForward m l) := by
  cases l with
  | nil => exact h
  | cons d rest =>
    obtain ⟨hm, hd, hrest⟩ := h
    by_cases hdf : d.free = true
    · simp only [mergeForward, hdf, if_pos]
      refine ⟨hm, ?_⟩
      simpa [Nat.add_assoc] using hrest
    · simp only [mergeForward, hdf]
      exact ⟨hm, hd, hrest⟩

theorem chain_freeMerge (tid : Nat) :
    ∀ (l : List Block) (o : Nat), chain o l → chain o (freeMerge tid l)
  | [], _, h => h
  | [b], o, h => by
    by_cases hb : b.id = tid <;> simp [freeMerge, hb, chain] <;> exact h.1
  | b :: c :: rest, o, h => by
    by_cases hb : b.id = tid
    · rw [freeMerge_head b tid _ hb]
      exact chain_mergeForward o _ _ h
    · by_cases hc : c.id = tid ∧ b.free = true
      · rw [freeMerge_prev_free b c tid rest hb hc.1 hc.2]
        apply chain_mergeForward
        obtain ⟨h1, h2, h3⟩ := h
        exact ⟨h1, by simpa [Nat.add_assoc] using h3⟩
      · have : freeMerge tid (b :: c :: rest) = b :: freeMerge tid (c :: rest) := by
          simp only [freeMerge]
          rw [if_neg hb, if_neg]
          simpa using hc
        rw [this]
        exact ⟨h.1, chain_freeMerge tid (c :: rest) (o + b.size) h.2⟩

theorem chain_offset_ge :
    ∀ (l : List Block) (o : Nat), chain o l → ∀ b ∈ l, o ≤ b.offset
  | [], _, _, b, hb => absurd hb (List.not_mem_nil b)
  | c :: rest, o, h, b, hb => by
    rcases List.mem_cons.mp hb with rfl | hb'
    · exact le_of_eq h.1.symm
    · exact le_trans (Nat.le_add_right o c.size) (chain_offset_ge rest (o + c.size) h.2 b hb')

theorem chain_adjacent :
    ∀ (l1 : List Block) (o : Nat) (a b : Block) (l2 : List Block),
      chain o (l1 ++ a :: b :: l2) → b.offset = a.offset + a.size
  | [], o, a, b, l2, h => by
    obtain ⟨ha, hb, _⟩ := h
    omega
  | c :: l1', o, a, b, l2, h =>
    chain_adjacent l1' (o + c.size) a b l2 h.2

theorem countP_contains_le_one (lo hi : Nat) (hlt : lo < hi) :
    ∀ (l : List Block) (o : Nat), chain o l →
      l.countP (fun b => decide (b.offset ≤ lo) && decide (hi ≤ b.offset + b.size)) ≤ 1
  | [], _, _ => by simp
  | b :: rest, o, h => by
    rw [List.countP_cons]
    by_cases hb : (decide (b.offset ≤ lo) && decide (hi ≤ b.offset + b.size)) = true
    · have hrest :
          rest.countP (fun b => decide (b.offset ≤ lo) && decide (hi ≤ b.offset + b.size)) = 0 := by
        rw [List.countP_eq_zero]
        intro c hc
        have hge : o + b.size ≤ c.offset := chain_offset_ge rest (o + b.size) h.2 c hc
        simp only [Bool.and_eq_true, decide_eq_true_eq] at hb ⊢
        intro hcontra
        obtain ⟨hc1, _⟩ := hcontra
        have hbo : b.offset = o := h.1
        omega
      simp [hb, hrest]
    · simp only [hb]
      simpa using countP_contains_le_one lo hi hlt rest (o + b.size) h.2

theorem countP_spans_eq_one {lo hi o : Nat} {l : List Block} {M : Block}
    (hchain : chain o l) (hlt : lo < hi) (hM : M ∈ l) (hMs : spans lo hi M = true) :
    l.countP (spans lo hi) = 1 := by
  apply le_antisymm
  · calc l.countP (spans lo hi)
        ≤ l.countP (fun b => decide (b.offset ≤ lo) && decide (hi ≤ b.offset + b.size)) := by
          apply List.countP_mono_left
          intro b _ hbs
          simp only [spans, Bool.and_eq_true] at hbs ⊢
          exact ⟨hbs.1.2, hbs.2⟩
      _ ≤ 1 := countP_contains_le_one lo hi hlt l o hchain
  · rw [Nat.succ_le_iff]
    rw [List.countP_pos_iff]
    exact ⟨M, hM, hMs⟩

theorem free_first_shape (o : Nat) (pre post : List Block) (x y : Block)
    (hchain : chain o (pre ++ x :: y :: post))
    (hnx : ∀ a ∈ pre, a.id ≠ x.id) (hyfree : y.free = false) :
    ∃ pre1 M1,
      freeMerge x.id (pre ++ x :: y :: post) = pre1 ++ M1 :: y :: post ∧
      M1.free = true ∧ M1.offset ≤ x.offset ∧
      M1.offset + M1.size = x.offset + x.size ∧
      (∀ tid2, tid2 ≠ x.id → (∀ a ∈ pre, a.id ≠ tid2) →
        M1.id ≠ tid2 ∧ ∀ a ∈ pre1, a.id ≠ tid2) := by
  rcases List.eq_nil_or_concat pre with rfl | ⟨pre', p, rfl⟩
  · refine ⟨[], { x with free := true }, ?_, rfl, le_refl _, rfl, ?_⟩
    · rw [List.nil_append, freeMerge_head x x.id _ rfl]
      simp [mergeForward, hyfree]
    · intro tid2 htid2 _
      exact ⟨fun h => htid2 h.symm, by simp⟩
  · simp only [List.concat_eq_append] at hnx hchain ⊢
    have hp : p.id ≠ x.id := hnx p (by simp)
    have hpre' : ∀ a ∈ pre', a.id ≠ x.id := fun a ha => hnx a (by simp [ha])
    have hassoc : (pre' ++ [p]) ++ x :: y :: post = pre' ++ p :: x :: y :: post := by
      simp
    have hadj : x.offset = p.offset + p.size := by
      rw [hassoc] at hchain
      exact chain_adjacent pre' o p x (y :: post) hchain
    rw [hassoc, freeMerge_append x.id pre' p _ hpre' hp]
    by_cases hpf : p.free = true
    · refine ⟨pre', { p with size := p.size + x.size }, ?_, hpf, ?_, ?_, ?_⟩
      · rw [freeMerge_prev_free p x x.id _ hp rfl hpf]
        simp [mergeForward, hyfree]
      · simp only []
        omega
      · simp only []
        omega
      · intro tid2 _ hpretid
        exact ⟨fun h => hpretid p (by simp) h, fun a ha => hpretid a (by simp [ha])⟩
    · have hpf' : p.free = false := by simpa using hpf
      refine ⟨pre' ++ [p], { x with free := true }, ?_, rfl, le_refl _, rfl, ?_⟩
      · rw [freeMerge_prev_used p x x.id _ hp rfl hpf']
        simp [mergeForward, hyfree]
      · intro tid2 htid2 hpretid
        exact ⟨fun h => htid2 h.symm, fun a ha => hpretid a (by simpa using ha)⟩

theorem free_after_free_shape (pre1 post : List Block) (M1 y : Block)
    (hn : ∀ a ∈ pre1, a.id ≠ y.id) (hM1id : M1.id ≠ y.id) (hM1free : M1.free = true) :
    ∃ M2 tail, freeMerge y.id (pre1 ++ M1 :: y :: post) = pre1 ++ M2 :: tail ∧
      M2.free = true ∧ M2.offset = M1.offset ∧ M1.size + y.size ≤ M2.size := by
  rw [freeMerge_append y.id pre1 M1 _ hn hM1id,
    freeMerge_prev_free M1 y y.id post hM1id rfl hM1free]
  obtain ⟨M2, tail, heq, hfree, hoff, _, hsize⟩ :=
    mergeForward_shape { M1 with size := M1.size + y.size } post
  exact ⟨M2, tail, by rw [heq], by rw [hfree, hM1free], hoff, hsize⟩

theorem free_y_first_shape (pre post : List Block) (x y : Block)
    (hn : ∀ a ∈ pre, a.id ≠ y.id) (hxid : x.id ≠ y.id) (hxfree : x.free = false) :
    ∃ My tail1, freeMerge y.id (pre ++ x :: y :: post) = pre ++ x :: My :: tail1 ∧
      My.free = true ∧ My.offset = y.offset ∧ My.id = y.id ∧ y.size ≤ My.size := by
  rw [freeMerge_append y.id pre x _ hn hxid,
    freeMerge_prev_used x y y.id post hxid rfl hxfree]
  obtain ⟨My, tail1, heq, hfree, hoff, hid, hsize⟩ :=
    mergeForward_shape { y with free := true } post
  exact ⟨My, tail1, by rw [heq], by simpa using hfree, hoff, hid, hsize⟩

theorem free_into_next_shape (o : Nat) (pre tail1 : List Block) (x My : Block)
    (hchain : chain o (pre ++ x :: My :: tail1))
    (hnx : ∀ a ∈ pre, a.id ≠ x.id) (hMyfree : My.free = true) :
    ∃ preR M2 tailR, freeMerge x.id (pre ++ x :: My :: tail1) = preR ++ M2 :: tailR ∧
      M2.free = true ∧ M2.offset ≤ x.offset ∧
      x.offset + x.size + My.size ≤ M2.offset + M2.size := by
  rcases List.eq_nil_or_concat pre with rfl | ⟨pre', p, rfl⟩
  · refine ⟨[], { x with free := true, size := x.size + My.size }, tail1, ?_, rfl, le_refl _,
      by simp; omega⟩
    rw [List.nil_append, freeMerge_head x x.id _ rfl]
    simp [mergeForward, hMyfree]
  · simp only [List.concat_eq_append] at hnx hchain ⊢
    have hp : p.id ≠ x.id := hnx p (by simp)
    have hpre' : ∀ a ∈ pre', a.id ≠ x.id := fun a ha => hnx a (by simp [ha])
    have hassoc : (pre' ++ [p]) ++ x :: My :: tail1 = pre' ++ p :: x :: My :: tail1 := by
      simp
    have hadj : x.offset = p.offset + p.size := by
      rw [hassoc] at hchain
      exact chain_adjacent pre' o p x (My :: tail1) hchain
    rw [hassoc, freeMerge_append x.id pre' p _ hpre' hp]
    by_cases hpf : p.free = true
    · refine ⟨pre', { p with size := p.size + x.size + My.size }, tail1, ?_, hpf, ?_, ?_⟩
      · rw [freeMerge_prev_free p x x.id _ hp rfl hpf]
        simp [mergeForward, hMyfree, Nat.add_assoc]
      · simp only []
        omega
      · simp only []
        omega
    · have hpf' : p.free = false := by simpa using hpf
      refine ⟨pre' ++ [p], { x with free := true, size := x.size + My.size }, tail1, ?_, rfl,
        le_refl _, by simp; omega⟩
      rw [freeMerge_prev_used p x x.id _ hp rfl hpf']
      simp [mergeForward, hMyfree]

/-- Claim C4: `BlockAllocationStrategy::free` coalesces a freed block with
its offset-adjacent neighbours (backward merge into a free predecessor
first, then forward merge of a free successor, operating on the merged
block each time — exactly the structure of `freeMerge`).  Consequently,
starting from a well-formed strategy (blocks tile the region contiguously,
node ids distinct) holding two adjacent allocated blocks `x` and `y`,
freeing both — in either order — leaves exactly one free block spanning
their combined range `[x.offset, y.offset + y.size)`. -/
theorem free_adjacent_coalesces (s : Strategy) (pre post : List Block) (x y : Block)
    (ax ay : AllocationInfo)
    (hblocks : s.blocks = pre ++ x :: y :: post)
    (hchain : chain 0 s.blocks)
    (hnodup : (s.blocks.map Block.id).Nodup)
    (hx : x.free = false) (hy : y.free = false)
    (hxs : 0 < x.size) (hys : 0 < y.size)
    (hax : ax.internal_data = x.id) (hay : ay.internal_data = y.id) :
    ((free (free s ax) ay).blocks.countP (spans x.offset (y.offset + y.size)) = 1) ∧
    ((free (free s ay) ax).blocks.countP (spans x.offset (y.offset + y.size)) = 1) := by
  rw [hblocks] at hchain hnodup
  rw [List.map_append, List.map_cons, List.map_cons, List.nodup_append] at hnodup
  obtain ⟨-, hnd2, hdisj⟩ := hnodup
  have hxy : x.id ≠ y.id := by
    rw [List.nodup_cons] at hnd2
    exact fun h => hnd2.1 (by simp [h])
  have hprex : ∀ a ∈ pre, a.id ≠ x.id := fun a ha h =>
    hdisj (List.mem_map_of_mem _ ha) (by simp [h])
  have hprey : ∀ a ∈ pre, a.id ≠ y.id := fun a ha h =>
    hdisj (List.mem_map_of_mem _ ha) (by simp [h])
  have hyx : y.offset = x.offset + x.size := chain_adjacent pre 0 x y post hchain
  have hlt : x.offset < y.offset + y.size := by omega
  constructor
  · -- free x, then free y
    obtain ⟨pre1, M1, hshape1, hM1free, hM1le, hM1sum, hM1ids⟩ :=
      free_first_shape 0 pre post x y hchain hprex hy
    obtain ⟨hM1y, hpre1y⟩ := hM1ids y.id (fun h => hxy h.symm) hprey
    obtain ⟨M2, tail, hshape2, hM2free, hM2off, hM2size⟩ :=
      free_after_free_shape pre1 post M1 y hpre1y hM1y hM1free
    have hres : (free (free s ax) ay).blocks =
        freeMerge y.id (freeMerge x.id (pre ++ x :: y :: post)) := by
      simp [free, hax, hay, hblocks]
    have hreschain : chain 0 ((free (free s ax) ay).blocks) := by
      rw [hres]
      exact chain_freeMerge _ _ _ (chain_freeMerge _ _ _ hchain)
    have hfinal : (free (free s ax) ay).blocks = pre1 ++ M2 :: tail := by
      rw [hres, hshape1, hshape2]
    have hM2mem : M2 ∈ (free (free s ax) ay).blocks := by
      rw [hfinal]
      simp
    have hM2spans : spans x.offset (y.offset + y.size) M2 = true := by
      simp only [spans, Bool.and_eq_true, decide_eq_true_eq]
      refine ⟨⟨hM2free, ?_⟩, ?_⟩ <;> omega
    rw [hfinal] at hreschain hM2mem ⊢
    exact countP_spans_eq_one hreschain hlt hM2mem hM2spans
  · -- free y, then free x
    obtain ⟨My, tail1, hshape1, hMyfree, hMyoff, hMyid, hMysize⟩ :=
      free_y_first_shape pre post x y hprey hxy hx
    have hchain1 : chain 0 (pre ++ x :: My :: tail1) := by
      rw [← hshape1]
      exact chain_freeMerge _ _ _ hchain
    obtain ⟨preR, M2, tailR, hshape2, hM2free, hM2le, hM2size⟩ :=
      free_into_next_shape 0 pre tail1 x My hchain1 hprex hMyfree
    have hres : (free (free s ay) ax).blocks =
        freeMerge x.id (freeMerge y.id (pre ++ x :: y :: post)) := by
      simp [free, hax, hay, hblocks]
    have hreschain : chain 0 ((free (free s ay) ax).blocks) := by
      rw [hres]
      exact chain_freeMerge _ _ _ (chain_freeMerge _ _ _ hchain)
    have hfinal : (free (free s ay) ax).blocks = preR ++ M2 :: tailR := by
      rw [hres, hshape1, hshape2]
    have hM2mem : M2 ∈ (free (free s ay) ax).blocks := by
      rw [hfinal]
      simp
    have hM2spans : spans x.offset (y.offset + y.size) M2 = true := by
      simp only [spans, Bool.and_eq_true, decide_eq_true_eq]
      refine ⟨⟨hM2free, ?_⟩, ?_⟩ <;> omega
    rw [hfinal] at hreschain hM2mem ⊢
    exact countP_spans_eq_one hreschain hlt hM2mem hM2spans

/-- A two-block strategy used to witness the coalescing theorem: a 2-byte
block at offset 0 and a 3-byte block at offset 2, both allocated. -/
def coalesceWitnessState : Strategy :=
  { memory_size := 5
    alignment := 0
    blocks := [⟨0, false, 2, 0⟩, ⟨1, false, 3, 2⟩]
    allocated := 5
    next_block_id := 2 }

/-- Witness for claim C4: on `coalesceWitnessState`, freeing the two
adjacent blocks in either order leaves exactly one free block spanning
`[0, 5)`. -/
theorem free_adjacent_coalesces_witness :
    ((free (free coalesceWitnessState ⟨2, 0, 0⟩) ⟨3, 2, 1⟩).blocks.countP (spans 0 5) = 1) ∧
    ((free (free coalesceWitnessState ⟨3, 2, 1⟩) ⟨2, 0, 0⟩).blocks.countP (spans 0 5) = 1) :=
  free_adjacent_coalesces coalesceWitnessState
    [] [] ⟨0, false, 2, 0⟩ ⟨1, false, 3, 2⟩ ⟨2, 0, 0⟩ ⟨3, 2, 1⟩
    rfl (by decide) (by decide) rfl rfl (by decide) (by decide) rfl rfl

end BlockAlloc

namespace ProcMesh

/-- `ProceduralMesh::set_vertex_data`.  Returns the pair (bytes written to
the cached staging buffer, resulting `num_vertex_bytes_to_upload`).
`debugBuild` models the `NOVA_DEBUG` conditional compilation: the
capacity check and truncation exist only inside `#ifdef NOVA_DEBUG`; a
release build writes the full requested size unconditionally. -/
def set_vertex_data (debugBuild : Bool) (vertex_buffer_size size : Nat) : Nat × Nat :=
  if debugBuild ∧ vertex_buffer_size < size then
    (vertex_buffer_size, vertex_buffer_size)
  else
    (size, size)

/-- `ProceduralMesh::set_index_data`, same shape as `set_vertex_data`. -/
def set_index_data (debugBuild : Bool) (index_buffer_size size : Nat) : Nat × Nat :=
  if debugBuild ∧ index_buffer_size < size then
    (index_buffer_size, index_buffer_size)
  else
    (size, size)

/-- Counterexample to claim C2: in a release (non-debug) build, an
oversized `set_vertex_data` is NOT truncated to the declared capacity —
with capacity 10 and a 20-byte write, 20 bytes are written to the staging
buffer and 20 bytes are recorded pending upload, not 10.  The truncation
branch is compiled only under `NOVA_DEBUG`. -/
theorem set_vertex_data_release_not_truncated :
    set_vertex_data false 10 20 = (20, 20) ∧ 10 < 20 ∧ (20 : Nat) ≠ 10 := by
  decide

/-- Claim C2 as amended: in debug builds an oversized `set_vertex_data` /
`set_index_data` is truncated to the declared capacity (that many bytes
written and recorded pending); in release builds the full requested size
is written and recorded, with no truncation. -/
theorem set_data_truncation_debug_only (cap size : Nat) :
    (cap < size →
      set_vertex_data true cap size = (cap, cap) ∧
      set_index_data true cap size = (cap, cap)) ∧
    set_vertex_data false cap size = (size, size) ∧
    set_index_data false cap size = (size, size) := by
  constructor
  · intro h
    constructor <;> simp [set_vertex_data, set_index_data, h]
  · constructor <;> simp [set_vertex_data, set_index_data]

/-- Witness for the amended claim C2, at capacity 10 and request 20. -/
theorem set_data_truncation_debug_only_witness :
    set_vertex_data true 10 20 = (10, 10) ∧ set_vertex_data false 10 20 = (20, 20) :=
  ⟨((set_data_truncation_debug_only 10 20).1 (by decide)).1,
   (set_data_truncation_debug_only 10 20).2.1⟩

end ProcMesh

namespace FrameLoop

/-- The `frame_count++` at the top of `NovaRenderer::execute_frame`
(`frame_count` is a `uint64_t`; frame counts stay far below `2^64`). -/
def execute_frame_count (frame_count : Nat) : Nat := frame_count + 1

/-- The arena selection
`frame_allocators[frame_count % NUM_IN_FLIGHT_FRAMES]` of
`execute_frame`, applied to the already-incremented counter.  `N` stands
for `NUM_IN_FLIGHT_FRAMES` (its defining `constants.hpp` is not among the
provided sources; the spec keeps the in-flight count abstract). -/
def frame_arena_index (N frame_count : Nat) : Nat := frame_count % N

theorem iterate_execute_frame_count (start : Nat) :
    ∀ k : Nat, execute_frame_count^[k] start = start + k
  | 0 => rfl
  | k + 1 => by
    rw [Function.iterate_succ_apply', iterate_execute_frame_count start k]
    rfl

/-- Claim C8: every `execute_frame` call increments the frame counter by
exactly 1 (so `k` calls increment it by `k`), each call selects the
per-frame arena at index `frame_count % NUM_IN_FLIGHT_FRAMES`, and over
`N` consecutive calls the selected arena indices are pairwise distinct —
the selection cycles through exactly `N` distinct values. -/
theorem execute_frame_counter_and_arena_cycle (N start k : Nat) :
    (execute_frame_count^[k] start = start + k) ∧
    ((List.range N).map fun i => frame_arena_index N (execute_frame_count^[i + 1] start)).Nodup ∧
    ((List.range N).map fun i => frame_arena_index N (execute_frame_count^[i + 1] start)).length
      = N := by
  refine ⟨iterate_execute_frame_count start k, ?_, by simp⟩
  apply List.Nodup.map_on _ (List.nodup_range N)
  intro i hi j hj hij
  rw [List.mem_range] at hi hj
  rw [iterate_execute_frame_count, iterate_execute_frame_count] at hij
  have hmod : (start + (i + 1)) % N = (start + (j + 1)) % N := hij
  rcases le_total i j with hle | hle
  · have hdvd : N ∣ (start + (j + 1)) - (start + (i + 1)) :=
      (Nat.modEq_iff_dvd' (by omega)).mp hmod
    have : (start + (j + 1)) - (start + (i + 1)) = j - i := by omega
    rw [this] at hdvd
    have := Nat.eq_zero_of_dvd_of_lt hdvd
    omega
  · have hdvd : N ∣ (start + (i + 1)) - (start + (j + 1)) :=
      (Nat.modEq_iff_dvd' (by omega)).mp hmod.symm
    have : (start + (i + 1)) - (start + (j + 1)) = i - j := by omega
    rw [this] at hdvd
    have := Nat.eq_zero_of_dvd_of_lt hdvd
    omega

end FrameLoop

namespace MeshIds

/-- The mesh-id state of `NovaRenderer`: the shared `next_mesh_id` counter
and the key sets of the `meshes` and `proc_meshes` tables. -/
structure MeshTables where
  next_mesh_id : Nat
  meshes : List Nat
  proc_meshes : List Nat
deriving DecidableEq

/-- The id handling of `NovaRenderer::create_mesh`:
`MeshId new_mesh_id = next_mesh_id; next_mesh_id++;
meshes.emplace(new_mesh_id, mesh);` (the GPU buffer uploads preceding it
do not touch the id tables). -/
def create_mesh (s : MeshTables) : Nat × MeshTables :=
  (s.next_mesh_id,
   { s with
     next_mesh_id := s.next_mesh_id + 1
     meshes := s.meshes ++ [s.next_mesh_id] })

/-- The id handling of `NovaRenderer::create_procedural_mesh`:
`MeshId our_id = next_mesh_id; next_mesh_id++;
proc_meshes.emplace(our_id, ...);`. -/
def create_procedural_mesh (s : MeshTables) : Nat × MeshTables :=
  (s.next_mesh_id,
   { s with
     next_mesh_id := s.next_mesh_id + 1
     proc_meshes := s.proc_meshes ++ [s.next_mesh_id] })

/-- One call of either mesh-creating operation. -/
inductive MeshOp
  | staticMesh
  | proceduralMesh

/-- Run one mesh-creating call. -/
def runOp (s : MeshTables) : MeshOp → Nat × MeshTables
  | .staticMesh => create_mesh s
  | .proceduralMesh => create_procedural_mesh s

/-- Run an arbitrary interleaving of the two calls, returning the ids in
call order. -/
def runOps (s : MeshTables) : List MeshOp → List Nat
  | [] => []
  | op :: ops => (runOp s op).1 :: runOps (runOp s op).2 ops

theorem runOps_eq_range' (ops : List MeshOp) :
    ∀ s : MeshTables, runOps s ops = List.range' s.next_mesh_id ops.length := by
  induction ops with
  | nil => intro s; rfl
  | cons op ops ih =>
    intro s
    cases op <;>
      simp [runOps, runOp, create_mesh, create_procedural_mesh, ih, List.range'_succ]

/-- Claim C9: `create_mesh` and `create_procedural_mesh` both return the
current `next_mesh_id` and increment the shared counter by one, so any
interleaving of the two operations returns pairwise-distinct, strictly
increasing mesh ids (a static and a procedural mesh can never share an
id). -/
theorem mesh_ids_distinct_increasing (s : MeshTables) (ops : List MeshOp) :
    (create_mesh s).1 = s.next_mesh_id ∧
    (create_mesh s).2.next_mesh_id = s.next_mesh_id + 1 ∧
    (create_procedural_mesh s).1 = s.next_mesh_id ∧
    (create_procedural_mesh s).2.next_mesh_id = s.next_mesh_id + 1 ∧
    (runOps s ops).Pairwise (· < ·) := by
  refine ⟨rfl, rfl, rfl, rfl, ?_⟩
  rw [runOps_eq_range']
  exact List.pairwise_lt_range' _ _

end MeshIds

namespace ResMgr

/-- A folder accessor on the resource search path, reduced to what
`add_resource_root` observes: the root it was constructed with (returned
by `FolderAccessorBase::get_root`) and which accessor type
(`ZipFolderAccessor` vs `RegularFolderAccessor`) was constructed. -/
structure FolderAccessor where
  root : String
  isZip : Bool
deriving DecidableEq

/-- `ResourceManager::add_resource_root`: if some accessor on the search
path already has the new root, do nothing; otherwise append a zip or
regular accessor for it (chosen by `is_zip_folder`, an external
predicate). -/
def add_resource_root (is_zip_folder : String → Bool)
    (resource_folders : List FolderAccessor) (new_root : String) : List FolderAccessor :=
  if resource_folders.any fun f => f.root = new_root then resource_folders
  else resource_folders ++ [{ root := new_root, isZip := is_zip_folder new_root }]

/-- Claim C10: `add_resource_root` is idempotent — adding a root already
on the search path leaves the path unchanged, and adding the same root
twice yields exactly the list obtained by adding it once. -/
theorem add_resource_root_idempotent (is_zip_folder : String → Bool)
    (resource_folders : List FolderAccessor) (new_root : String) :
    ((∃ f ∈ resource_folders, f.root = new_root) →
      add_resource_root is_zip_folder resource_folders new_root = resource_folders) ∧
    add_resource_root is_zip_folder
        (add_resource_root is_zip_folder resource_folders new_root) new_root =
      add_resource_root is_zip_folder resource_folders new_root := by
  constructor
  · intro h
    have : (resource_folders.any fun f => f.root = new_root) = true := by
      rw [List.any_eq_true]
      obtain ⟨f, hf, hr⟩ := h
      exact ⟨f, hf, by simp [hr]⟩
    simp [add_resource_root, this]
  · by_cases h : (resource_folders.any fun f => f.root = new_root) = true
    · simp [add_resource_root, h]
    · simp [add_resource_root, h, List.any_append]

/-- Witness for claim C10: re-adding the already-present root `a` leaves a
one-element search path unchanged. -/
theorem add_resource_root_idempotent_witness :
    add_resource_root (fun _ => false) [{ root := "a", isZip := false }] "a" =
      [{ root := "a", isZip := false }] :=
  (add_resource_root_idempotent (fun _ => false) [{ root := "a", isZip := false }] "a").1
    ⟨{ root := "a", isZip := false }, by simp, rfl⟩

end ResMgr

namespace RenderGraph

/-- Modelled from the spec: the sentinel name `BACKBUFFER_NAME` of the
swapchain backbuffer (defined in `nova_renderer/constants.hpp`, which is
not among the provided sources; the validation below only compares
attachment names against it). -/
def BACKBUFFER_NAME : String := "Backbuffer"

/-- An output attachment declaration, reduced to the field the validation
loop reads: its name. -/
structure TextureAttachmentInfo where
  name : String
deriving DecidableEq

/-- A `shaderpack::RenderPassCreateInfo`, reduced to the fields
`add_render_pass` validates: pass name, output attachments, and the
optional depth texture name (the depth texture never participates in the
error checks, only in the framebuffer contents). -/
structure RenderPassCreateInfo where
  name : String
  texture_outputs : List TextureAttachmentInfo
  depth_texture : Option String
deriving DecidableEq

/-- The two kinds of entries pushed onto `attachment_errors`: the
backbuffer-exclusivity message (naming the pass and how many other
textures it writes) and the size-mismatch message (naming the conflicting
attachment, its size, the pass, and the framebuffer size recorded so
far). -/
inductive AttachmentError
  | backbufferConflict (passName : String) (numOtherTextures : Nat)
  | sizeMismatch (attachmentName : String) (attachmentSize : Nat × Nat)
      (passName : String) (framebufferSize : Nat × Nat)
deriving DecidableEq

/-- The loop-local state of the `texture_outputs` loop of
`add_render_pass`: `color_attachments` (images modelled by their render
target names), `framebuffer_size` (starts at `glm::uvec2(0)`),
`attachment_errors`, and the `writes_to_backbuffer` flag. -/
structure AttachState where
  color_attachments : List String
  framebuffer_size : Nat × Nat
  errors : List AttachmentError
  writes_to_backbuffer : Bool
deriving DecidableEq

/-- Loop state on entry to the attachment loop. -/
def initAttachState : AttachState := ⟨[], (0, 0), [], false⟩

/-- One iteration of the `texture_outputs` loop of `add_render_pass`.
`resources` models `resource_storage->get_render_target`, yielding a
render target's pixel dimensions by name; a failed lookup only logs
("No render target named ...") and records nothing.  Faithful to the
source: the size comparison happens only when the accumulated
`framebuffer_size.x` is already positive; otherwise the accumulated size
is overwritten by the current attachment's size. -/
def process_attachment (resources : String → Option (Nat × Nat)) (passName : String)
    (numOutputs : Nat) (st : AttachState) (att : TextureAttachmentInfo) : AttachState :=
  if att.name = BACKBUFFER_NAME then
    if numOutputs = 1 then
      { st with writes_to_backbuffer := true }
    else
      { st with writes_to_backbuffer := true,
                errors := st.errors ++ [.backbufferConflict passName (numOutputs - 1)] }
  else
    match resources att.name with
    | some sz =>
      let st1 := { st with color_attachments := st.color_attachments ++ [att.name] }
      if 0 < st1.framebuffer_size.1 then
        if sz ≠ st1.framebuffer_size then
          { st1 with
            errors := st1.errors ++ [.sizeMismatch att.name sz passName st1.framebuffer_size] }
        else st1
      else { st1 with framebuffer_size := sz }
    | none => st

/-- The renderer-side effects of `add_render_pass` that the claims
observe, all keyed by pass name: the `renderpasses` submission list, the
`renderpass_metadatas` table, which passes got a backend renderpass
(`rhi->create_renderpass`), and which got a framebuffer
(`rhi->create_framebuffer`). -/
structure RendererState where
  renderpasses : List String
  renderpass_metadatas : List String
  backend_renderpasses : List String
  framebuffers : List String
deriving DecidableEq

/-- `NovaRenderer::add_render_pass`: run the attachment-validation loop;
if any attachment errors were recorded, log them and return before
creating anything (the state is untouched); otherwise create the backend
renderpass, create a framebuffer unless the pass writes to the
backbuffer, and append the pass to `renderpasses` and
`renderpass_metadatas`.  The backend `create_renderpass` call is an
external RHI call returning a `Result`; per §4.3 of the spec it is
modelled as succeeding.  Returns the new state and the recorded
attachment errors. -/
def add_render_pass (resources : String → Option (Nat × Nat)) (s : RendererState)
    (info : RenderPassCreateInfo) : RendererState × List AttachmentError :=
  let final := info.texture_outputs.foldl
    (process_attachment resources info.name info.texture_outputs.length) initAttachState
  if final.errors = [] then
    let s1 := { s with backend_renderpasses := s.backend_renderpasses ++ [info.name] }
    let s2 :=
      if final.writes_to_backbuffer then s1
      else { s1 with framebuffers := s1.framebuffers ++ [info.name] }
    ({ s2 with
       renderpasses := s2.renderpasses ++ [info.name]
       renderpass_metadatas := s2.renderpass_metadatas ++ [info.name] },
     final.errors)
  else (s, final.errors)

/-- `NovaRenderer::create_render_passes`: one independent
`add_render_pass` call per create-info, in order. -/
def create_render_passes (resources : String → Option (Nat × Nat))
    (s : RendererState) (infos : List RenderPassCreateInfo) : RendererState :=
  infos.foldl (fun st info => (add_render_pass resources st info).1) s

theorem errors_extend (resources : String → Option (Nat × Nat)) (passName : String)
    (numOutputs : Nat) (st : AttachState) (att : TextureAttachmentInfo) :
    ∃ t, (process_attachment resources passName numOutputs st att).errors = st.errors ++ t := by
  by_cases hbb : att.name = BACKBUFFER_NAME
  · by_cases h1 : numOutputs = 1
    · exact ⟨[], by simp [process_attachment, hbb, h1]⟩
    · exact ⟨[.backbufferConflict passName (numOutputs - 1)],
        by simp [process_attachment, hbb, h1]⟩
  · cases hres : resources att.name with
    | none => exact ⟨[], by simp [process_attachment, hbb, hres]⟩
    | some sz =>
      by_cases h2 : 0 < st.framebuffer_size.1
      · by_cases h3 : sz = st.framebuffer_size
        · exact ⟨[], by simp [process_attachment, hbb, hres, h2, h3]⟩
        · exact ⟨[.sizeMismatch att.name sz passName st.framebuffer_size],
            by simp [process_attachment, hbb, hres, h2, h3]⟩
      · exact ⟨[], by simp [process_attachment, hbb, hres, h2]⟩

theorem foldl_errors_extend (resources : String → Option (Nat × Nat)) (passName : String)
    (numOutputs : Nat) :
    ∀ (l : List TextureAttachmentInfo) (st : AttachState),
      ∃ t, (l.foldl (process_attachment resources passName numOutputs) st).errors
        = st.errors ++ t
  | [], st => ⟨[], by simp⟩
  | att :: l, st => by
    obtain ⟨t1, h1⟩ := errors_extend resources passName numOutputs st att
    obtain ⟨t2, h2⟩ :=
      foldl_errors_extend resources passName numOutputs l
        (process_attachment resources passName numOutputs st att)
    exact ⟨t1 ++ t2, by rw [List.foldl_cons, h2, h1, List.append_assoc]⟩

theorem mem_foldl_errors (resources : String → Option (Nat × Nat)) (passName : String)
    (numOutputs : Nat) (l : List TextureAttachmentInfo) (st : AttachState)
    (e : AttachmentError) (he : e ∈ st.errors) :
    e ∈ (l.foldl (process_attachment resources passName numOutputs) st).errors := by
  obtain ⟨t, ht⟩ := foldl_errors_extend resources passName numOutputs l st
  rw [ht]
  exact List.mem_append_left t he

theorem fb_stable (resources : String → Option (Nat × Nat)) (passName : String)
    (numOutputs : Nat) (st : AttachState) (att : TextureAttachmentInfo)
    (h : 0 < st.framebuffer_size.1) :
    (process_attachment resources passName numOutputs st att).framebuffer_size
      = st.framebuffer_size := by
  by_cases hbb : att.name = BACKBUFFER_NAME
  · by_cases h1 : numOutputs = 1 <;> simp [process_attachment, hbb, h1]
  · cases hres : resources att.name with
    | none => simp [process_attachment, hbb, hres]
    | some sz =>
      by_cases h3 : sz = st.framebuffer_size <;>
        simp [process_attachment, hbb, hres, h, h3]

theorem foldl_fb_stable (resources : String → Option (Nat × Nat)) (passName : String)
    (numOutputs : Nat) :
    ∀ (l : List TextureAttachmentInfo) (st : AttachState), 0 < st.framebuffer_size.1 →
      (l.foldl (process_attachment resources passName numOutputs) st).framebuffer_size
        = st.framebuffer_size
  | [], _, _ => rfl
  | att :: l, st, h => by
    rw [List.foldl_cons]
    have hstep := fb_stable resources passName numOutputs st att h
    rw [foldl_fb_stable resources passName numOutputs l _ (by rw [hstep]; exact h), hstep]

theorem mismatch_recorded (resources : String → Option (Nat × Nat)) (passName : String)
    (numOutputs : Nat) (l : List TextureAttachmentInfo) (st : AttachState)
    (a : TextureAttachmentInfo) (sz : Nat × Nat)
    (ha : a ∈ l) (hn : a.name ≠ BACKBUFFER_NAME) (hres : resources a.name = some sz)
    (hfb : 0 < st.framebuffer_size.1) (hdiff : sz ≠ st.framebuffer_size) :
    AttachmentError.sizeMismatch a.name sz passName st.framebuffer_size ∈
      (l.foldl (process_attachment resources passName numOutputs) st).errors := by
  obtain ⟨u, v, rfl⟩ := List.append_of_mem ha
  rw [List.foldl_append, List.foldl_cons]
  have hfb1 : (u.foldl (process_attachment resources passName numOutputs) st).framebuffer_size
      = st.framebuffer_size := foldl_fb_stable resources passName numOutputs u st hfb
  apply mem_foldl_errors
  simp [process_attachment, hn, hres, hfb1, hfb, hdiff]

theorem fb_unresolved (resources : String → Option (Nat × Nat)) (passName : String)
    (numOutputs : Nat) (st : AttachState) (att : TextureAttachmentInfo)
    (h : att.name = BACKBUFFER_NAME ∨ resources att.name = none) :
    (process_attachment resources passName numOutputs st att).framebuffer_size
      = st.framebuffer_size := by
  by_cases hbb : att.name = BACKBUFFER_NAME
  · by_cases h1 : numOutputs = 1 <;> simp [process_attachment, hbb, h1]
  · have hres : resources att.name = none := h.resolve_left hbb
    simp [process_attachment, hbb, hres]

theorem fb_first_resolved (resources : String → Option (Nat × Nat)) (passName : String)
    (numOutputs : Nat) (st : AttachState) (att : TextureAttachmentInfo) (sz : Nat × Nat)
    (hbb : att.name ≠ BACKBUFFER_NAME) (hres : resources att.name = some sz)
    (hfb : st.framebuffer_size.1 = 0) :
    (process_attachment resources passName numOutputs st att).framebuffer_size = sz := by
  simp [process_attachment, hbb, hres, hfb]

theorem mismatch_error_found (resources : String → Option (Nat × Nat)) (passName : String)
    (numOutputs : Nat) :
    ∀ (l : List TextureAttachmentInfo) (st : AttachState)
      (a1 a2 : TextureAttachmentInfo) (sz1 sz2 : Nat × Nat),
      a1 ∈ l → a2 ∈ l →
      a1.name ≠ BACKBUFFER_NAME → a2.name ≠ BACKBUFFER_NAME →
      resources a1.name = some sz1 → resources a2.name = some sz2 →
      (∀ a ∈ l, a.name ≠ BACKBUFFER_NAME → ∀ sz, resources a.name = some sz → 0 < sz.1) →
      st.framebuffer_size.1 = 0 → sz1 ≠ sz2 →
      ∃ an asz fbsz,
        AttachmentError.sizeMismatch an asz passName fbsz ∈
          (l.foldl (process_attachment resources passName numOutputs) st).errors ∧
        asz ≠ fbsz
  | [], _, a1, _, _, _, h1, _, _, _, _, _, _, _, _ => absurd h1 (List.not_mem_nil a1)
  | a :: l, st, a1, a2, sz1, sz2, h1, h2, hn1, hn2, hr1, hr2, hpos, hfb, hdiff => by
    rw [List.foldl_cons]
    have hpos' : ∀ b ∈ l, b.name ≠ BACKBUFFER_NAME →
        ∀ sz, resources b.name = some sz → 0 < sz.1 :=
      fun b hb => hpos b (List.mem_cons_of_mem _ hb)
    by_cases hres : a.name = BACKBUFFER_NAME ∨ resources a.name = none
    · have hfb' :
          (process_attachment resources passName numOutputs st a).framebuffer_size.1 = 0 := by
        rw [fb_unresolved resources passName numOutputs st a hres]
        exact hfb
      have ha1 : a1 ∈ l := by
        rcases List.mem_cons.mp h1 with rfl | h
        · rcases hres with h | h
          · exact absurd h hn1
          · rw [h] at hr1
            exact absurd hr1 (by simp)
        · exact h
      have ha2 : a2 ∈ l := by
        rcases List.mem_cons.mp h2 with rfl | h
        · rcases hres with h | h
          · exact absurd h hn2
          · rw [h] at hr2
            exact absurd hr2 (by simp)
        · exact h
      exact mismatch_error_found resources passName numOutputs l _ a1 a2 sz1 sz2
        ha1 ha2 hn1 hn2 hr1 hr2 hpos' hfb' hdiff
    · push_neg at hres
      obtain ⟨hbbA, hResA⟩ := hres
      obtain ⟨szA, hszA⟩ := Option.ne_none_iff_exists'.mp hResA
      have hposA : 0 < szA.1 := hpos a (List.mem_cons_self _ _) hbbA szA hszA
      have hfbA :
          (process_attachment resources passName numOutputs st a).framebuffer_size = szA :=
        fb_first_resolved resources passName numOutputs st a szA hbbA hszA hfb
      by_cases hs1 : sz1 = szA
      · have hs2 : sz2 ≠ szA := fun h => hdiff (hs1.trans h.symm)
        have ha2 : a2 ∈ l := by
          rcases List.mem_cons.mp h2 with rfl | h
          · rw [hszA] at hr2
            exact absurd (Option.some_injective _ hr2).symm hs2
          · exact h
        have hrec := mismatch_recorded resources passName numOutputs l
          (process_attachment resources passName numOutputs st a) a2 sz2 ha2 hn2 hr2
          (by rw [hfbA]; exact hposA) (by rw [hfbA]; exact hs2)
        rw [hfbA] at hrec
        exact ⟨a2.name, sz2, szA, hrec, hs2⟩
      · have ha1 : a1 ∈ l := by
          rcases List.mem_cons.mp h1 with rfl | h
          · rw [hszA] at hr1
            exact absurd (Option.some_injective _ hr1).symm hs1
          · exact h
        have hrec := mismatch_recorded resources passName numOutputs l
          (process_attachment resources passName numOutputs st a) a1 sz1 ha1 hn1 hr1
          (by rw [hfbA]; exact hposA) (by rw [hfbA]; exact hs1)
        rw [hfbA] at hrec
        exact ⟨a1.name, sz1, szA, hrec, hs1⟩

theorem backbuffer_error_recorded (resources : String → Option (Nat × Nat))
    (passName : String) (numOutputs : Nat) (hnum : numOutputs ≠ 1)
    (l : List TextureAttachmentInfo) (st : AttachState) (att : TextureAttachmentInfo)
    (hmem : att ∈ l) (hname : att.name = BACKBUFFER_NAME) :
    AttachmentError.backbufferConflict passName (numOutputs - 1) ∈
      (l.foldl (process_attachment resources passName numOutputs) st).errors := by
  obtain ⟨u, v, rfl⟩ := List.append_of_mem hmem
  rw [List.foldl_append, List.foldl_cons]
  apply mem_foldl_errors
  simp [process_attachment, hname, hnum]

/-- Claim C5: a render pass whose `texture_outputs` contain the backbuffer
sentinel plus at least one other output attachment gets a
backbuffer-conflict attachment error recorded, and `add_render_pass`
returns before creating a backend renderpass or framebuffer and before
appending the pass to `renderpasses` or `renderpass_metadatas` — the
renderer state is exactly as before the call. -/
theorem backbuffer_conflict_pass_skipped (resources : String → Option (Nat × Nat))
    (s : RendererState) (info : RenderPassCreateInfo)
    (hbb : ∃ att ∈ info.texture_outputs, att.name = BACKBUFFER_NAME)
    (hlen : 2 ≤ info.texture_outputs.length) :
    AttachmentError.backbufferConflict info.name (info.texture_outputs.length - 1) ∈
      (add_render_pass resources s info).2 ∧
    (add_render_pass resources s info).1 = s := by
  obtain ⟨att, hmem, hname⟩ := hbb
  have hnum : info.texture_outputs.length ≠ 1 := by omega
  have hmem2 := backbuffer_error_recorded resources info.name info.texture_outputs.length
    hnum info.texture_outputs initAttachState att hmem hname
  have herrne := List.ne_nil_of_mem hmem2
  have hrun : add_render_pass resources s info =
      (s, (info.texture_outputs.foldl
        (process_attachment resources info.name info.texture_outputs.length)
        initAttachState).errors) := by
    simp only [add_render_pass]
    rw [if_neg herrne]
  exact ⟨by rw [hrun]; exact hmem2, by rw [hrun]⟩

/-- Witness for claim C5: a pass writing the backbuffer plus one more
attachment is skipped and the renderer state is unchanged. -/
theorem backbuffer_conflict_pass_skipped_witness :
    AttachmentError.backbufferConflict "p" 1 ∈
      (add_render_pass (fun _ => none) ⟨[], [], [], []⟩
        ⟨"p", [⟨BACKBUFFER_NAME⟩, ⟨"x"⟩], none⟩).2 ∧
    (add_render_pass (fun _ => none) ⟨[], [], [], []⟩
      ⟨"p", [⟨BACKBUFFER_NAME⟩, ⟨"x"⟩], none⟩).1 = ⟨[], [], [], []⟩ :=
  backbuffer_conflict_pass_skipped (fun _ => none) ⟨[], [], [], []⟩
    ⟨"p", [⟨BACKBUFFER_NAME⟩, ⟨"x"⟩], none⟩
    ⟨⟨BACKBUFFER_NAME⟩, by simp, rfl⟩ (by simp)

/-- Claim C6 as amended: if two non-backbuffer output attachments of one
pass resolve to render targets with differing pixel dimensions, and every
resolved non-backbuffer attachment of the pass has positive width, the
pass is rejected: a size-mismatch error naming a conflicting attachment,
its size and the recorded framebuffer size is logged, no backend
renderpass or framebuffer is created, the pass is not appended — and the
rest of the shaderpack loads exactly as if the offending pass were absent
(sibling passes are processed independently). -/
theorem size_mismatch_pass_rejected (resources : String → Option (Nat × Nat))
    (s : RendererState) (info : RenderPassCreateInfo)
    (a1 a2 : TextureAttachmentInfo) (sz1 sz2 : Nat × Nat)
    (h1 : a1 ∈ info.texture_outputs) (h2 : a2 ∈ info.texture_outputs)
    (hn1 : a1.name ≠ BACKBUFFER_NAME) (hn2 : a2.name ≠ BACKBUFFER_NAME)
    (hr1 : resources a1.name = some sz1) (hr2 : resources a2.name = some sz2)
    (hpos : ∀ a ∈ info.texture_outputs, a.name ≠ BACKBUFFER_NAME →
      ∀ sz, resources a.name = some sz → 0 < sz.1)
    (hdiff : sz1 ≠ sz2) :
    (∃ an asz fbsz,
      AttachmentError.sizeMismatch an asz info.name fbsz ∈
        (add_render_pass resources s info).2 ∧ asz ≠ fbsz) ∧
    (add_render_pass resources s info).1 = s ∧
    (∀ s0 l1 l2, create_render_passes resources s0 (l1 ++ info :: l2) =
      create_render_passes resources s0 (l1 ++ l2)) := by
  obtain ⟨an, asz, fbsz, hmem, hne⟩ := mismatch_error_found resources info.name
    info.texture_outputs.length info.texture_outputs initAttachState a1 a2 sz1 sz2
    h1 h2 hn1 hn2 hr1 hr2 hpos rfl hdiff
  have herrne := List.ne_nil_of_mem hmem
  have hrun : ∀ st : RendererState, add_render_pass resources st info =
      (st, (info.texture_outputs.foldl
        (process_attachment resources info.name info.texture_outputs.length)
        initAttachState).errors) := by
    intro st
    simp only [add_render_pass]
    rw [if_neg herrne]
  refine ⟨⟨an, asz, fbsz, by rw [hrun s]; exact hmem, hne⟩, by rw [hrun s], ?_⟩
  intro s0 l1 l2
  simp only [create_render_passes, List.foldl_append, List.foldl_cons]
  rw [hrun]

/-- The render-target table and pass used to refute claim C6 as stated:
attachment `a` resolves to a 0×1 render target, attachment `b` to a 2×3
one. -/
def mismatchRes : String → Option (Nat × Nat) := fun n =>
  if n = "a" then some (0, 1) else if n = "b" then some (2, 3) else none

/-- A pass writing the two render targets of `mismatchRes`. -/
def mismatchInfo : RenderPassCreateInfo :=
  { name := "p", texture_outputs := [⟨"a"⟩, ⟨"b"⟩], depth_texture := none }

/-- An empty renderer state. -/
def emptyRendererState : RendererState := ⟨[], [], [], []⟩

/-- Counterexample to claim C6 as stated: the pass `p` writes attachments
resolving to render targets of sizes 0×1 and 2×3 — differing pixel
dimensions — yet no attachment error is recorded and the pass IS appended
to the pass list with a framebuffer, because the source only compares
sizes once the accumulated `framebuffer_size.x` is positive, and a
zero-width first attachment merely overwrites the accumulator. -/
theorem size_mismatch_zero_width_counterexample :
    mismatchRes "a" = some (0, 1) ∧ mismatchRes "b" = some (2, 3) ∧
    ((0, 1) : Nat × Nat) ≠ (2, 3) ∧
    (add_render_pass mismatchRes emptyRendererState mismatchInfo).2 = [] ∧
    (add_render_pass mismatchRes emptyRendererState mismatchInfo).1.renderpasses = ["p"] ∧
    (add_render_pass mismatchRes emptyRendererState mismatchInfo).1.framebuffers = ["p"] := by
  refine ⟨rfl, rfl, by decide, rfl, rfl, rfl⟩

/-- A render-target table for the witness of the amended claim C6:
attachment `a` resolves to a 1×1 target, `b` to a 2×2 one (both of
positive width). -/
def mismatchResPos : String → Option (Nat × Nat) := fun n =>
  if n = "a" then some (1, 1) else if n = "b" then some (2, 2) else none

/-- A pass writing the two differing positive-width targets of
`mismatchResPos`. -/
def mismatchInfoPos : RenderPassCreateInfo :=
  { name := "p", texture_outputs := [⟨"a"⟩, ⟨"b"⟩], depth_texture := none }

/-- Witness for the amended claim C6: the pass over 1×1 and 2×2 targets is
rejected with a size-mismatch error, the renderer state is unchanged, and
loading a pack containing the pass equals loading it without the pass. -/
theorem size_mismatch_pass_rejected_witness :
    (∃ an asz fbsz,
      AttachmentError.sizeMismatch an asz "p" fbsz ∈
        (add_render_pass mismatchResPos emptyRendererState mismatchInfoPos).2 ∧
      asz ≠ fbsz) ∧
    (add_render_pass mismatchResPos emptyRendererState mismatchInfoPos).1
      = emptyRendererState ∧
    create_render_passes mismatchResPos emptyRendererState ([] ++ mismatchInfoPos :: []) =
      create_render_passes mismatchResPos emptyRendererState ([] ++ []) := by
  have h := size_mismatch_pass_rejected mismatchResPos emptyRendererState mismatchInfoPos
    ⟨"a"⟩ ⟨"b"⟩ (1, 1) (2, 2)
    (by simp [mismatchInfoPos]) (by simp [mismatchInfoPos])
    (by decide) (by decide) rfl rfl
    (by
      intro a ha hbb sz hsz
      simp only [mismatchInfoPos] at ha
      rcases List.mem_cons.mp ha with rfl | ha2
      · simp only [mismatchResPos] at hsz
        simp at hsz
        subst hsz
        decide
      · rcases List.mem_cons.mp ha2 with rfl | ha3
        · simp only [mismatchResPos] at hsz
          simp at hsz
          subst hsz
          decide
        · exact absurd ha3 (List.not_mem_nil a))
    (by decide)
  exact ⟨h.1, h.2.1, h.2.2 emptyRendererState [] []⟩

end RenderGraph

namespace Renderables

/-- The documented failure sentinel of `add_renderable_for_material`:
`std::numeric_limits<uint64_t>::max()`. -/
def SENTINEL_RENDERABLE_ID : Nat := 2 ^ 64 - 1

/-- A `FullMaterialPassName`: material name plus material-pass name. -/
structure FullMaterialPassName where
  material_name : String
  pass_name : String
deriving DecidableEq

/-- Modelled from the spec: the `MaterialPassKey` stored in
`material_pass_keys` (declared in a header not among the provided
sources).  `add_renderable_for_material` reads its `pipeline_name` to
choose the `passes_by_pipeline` bucket; `create_materials_for_pipeline`
also stamps a `material_pass_index`. -/
structure MaterialPassKey where
  pipeline_name : String
  material_pass_index : Nat
deriving DecidableEq

/-- Modelled from the spec: a `StaticMeshRenderCommand` as produced by
`make_render_command(renderable, id)` (helper in a header not among the
provided sources); only the stamped renderable id matters to the claims. -/
structure StaticMeshRenderCommand where
  id : Nat
deriving DecidableEq

/-- A `MeshBatch`: the batch's vertex buffer (identified by the owning
mesh id) and its recorded commands. -/
structure MeshBatch where
  vertex_buffer : Nat
  commands : List StaticMeshRenderCommand
deriving DecidableEq

/-- A `MaterialPass` as built by `add_renderable_for_material` (the
descriptor-set fields play no role there). -/
structure MaterialPass where
  static_mesh_draws : List MeshBatch
  static_procedural_mesh_draws : List MeshBatch
deriving DecidableEq

/-- A `StaticMeshRenderableData`, reduced to the fields the function
reads: the referenced mesh id and the `is_static` flag. -/
structure StaticMeshRenderableData where
  mesh : Nat
  is_static : Bool
deriving DecidableEq

/-- The renderer state read and written by `add_renderable_for_material`:
the `next_renderable_id` counter, the `material_pass_keys` table, the
`passes_by_pipeline` table, and the key sets of the `meshes` /
`proc_meshes` tables. -/
structure RenderableState where
  next_renderable_id : Nat
  material_pass_keys : List (FullMaterialPassName × MaterialPassKey)
  passes_by_pipeline : List (String × List MaterialPass)
  meshes : List Nat
  proc_meshes : List Nat
deriving DecidableEq

/-- The batch-building middle of `add_renderable_for_material`, operating
on the freshly default-initialized `MaterialPass material = {}`: for a
static renderable whose mesh is in `meshes`, the (empty) batch list gains
one batch; in the `proc_meshes` branch `need_to_add_batch` is initialized
`false` in the source, so no batch is ever added; an unknown mesh id only
logs. -/
def build_material (s : RenderableState) (renderable : StaticMeshRenderableData)
    (command : StaticMeshRenderCommand) : MaterialPass :=
  if s.meshes.contains renderable.mesh then
    if renderable.is_static then
      { static_mesh_draws := [{ vertex_buffer := renderable.mesh, commands := [command] }]
        static_procedural_mesh_draws := [] }
    else { static_mesh_draws := [], static_procedural_mesh_draws := [] }
  else
    { static_mesh_draws := [], static_procedural_mesh_draws := [] }

/-- The `passes_by_pipeline[pass_key.pipeline_name].emplace_back(material)`
step: `operator[]` default-constructs a missing bucket, then the material
is appended. -/
def appendPass : List (String × List MaterialPass) → String → MaterialPass →
    List (String × List MaterialPass)
  | [], pipeline, pass => [(pipeline, [pass])]
  | kv :: rest, pipeline, pass =>
    if kv.1 = pipeline then (kv.1, kv.2 ++ [pass]) :: rest
    else kv :: appendPass rest pipeline pass

/-- `NovaRenderer::add_renderable_for_material`: take an id from the
atomic counter, look the material pass up in `material_pass_keys`; if it
is absent, log and return the sentinel id; otherwise build the material's
batches and append it to the keyed pipeline's pass list. -/
def add_renderable_for_material (s : RenderableState)
    (material_name : FullMaterialPassName) (renderable : StaticMeshRenderableData) :
    Nat × RenderableState :=
  let id := s.next_renderable_id
  let s1 := { s with next_renderable_id := s.next_renderable_id + 1 }
  match s1.material_pass_keys.find? (fun kv => kv.1 = material_name) with
  | none => (SENTINEL_RENDERABLE_ID, s1)
  | some kv =>
    let command : StaticMeshRenderCommand := { id := id }
    let material := build_material s1 renderable command
    (id,
     { s1 with
       passes_by_pipeline := appendPass s1.passes_by_pipeline kv.2.pipeline_name material })

/-- Claim C7: calling `add_renderable_for_material` with a
`FullMaterialPassName` absent from the loaded shaderpack's
`material_pass_keys` table returns the sentinel failure id (the maximum
`uint64_t` value) and leaves `passes_by_pipeline` and every other
renderable table (`material_pass_keys`, `meshes`, `proc_meshes`)
unchanged. -/
theorem missing_material_returns_sentinel (s : RenderableState)
    (material_name : FullMaterialPassName) (renderable : StaticMeshRenderableData)
    (h : ∀ kv ∈ s.material_pass_keys, kv.1 ≠ material_name) :
    (add_renderable_for_material s material_name renderable).1 = SENTINEL_RENDERABLE_ID ∧
    (add_renderable_for_material s material_name renderable).2.passes_by_pipeline
      = s.passes_by_pipeline ∧
    (add_renderable_for_material s material_name renderable).2.material_pass_keys
      = s.material_pass_keys ∧
    (add_renderable_for_material s material_name renderable).2.meshes = s.meshes ∧
    (add_renderable_for_material s material_name renderable).2.proc_meshes
      = s.proc_meshes := by
  have hfind : s.material_pass_keys.find? (fun kv => kv.1 = material_name) = none := by
    rw [List.find?_eq_none]
    intro kv hkv
    simp [h kv hkv]
  simp [add_renderable_for_material, hfind]

/-- Witness for claim C7: on a state whose key table holds only material
`m` pass `p`, asking for material `q` pass `p` fails with the sentinel and
leaves every table unchanged. -/
theorem missing_material_returns_sentinel_witness :
    (add_renderable_for_material
      ⟨7, [(⟨"m", "p"⟩, ⟨"pipe", 0⟩)], [("pipe", [])], [3], [4]⟩
      ⟨"q", "p"⟩ ⟨3, true⟩).1 = SENTINEL_RENDERABLE_ID ∧
    (add_renderable_for_material
      ⟨7, [(⟨"m", "p"⟩, ⟨"pipe", 0⟩)], [("pipe", [])], [3], [4]⟩
      ⟨"q", "p"⟩ ⟨3, true⟩).2.passes_by_pipeline = [("pipe", [])] ∧
    (add_renderable_for_material
      ⟨7, [(⟨"m", "p"⟩, ⟨"pipe", 0⟩)], [("pipe", [])], [3], [4]⟩
      ⟨"q", "p"⟩ ⟨3, true⟩).2.material_pass_keys = [(⟨"m", "p"⟩, ⟨"pipe", 0⟩)] ∧
    (add_renderable_for_material
      ⟨7, [(⟨"m", "p"⟩, ⟨"pipe", 0⟩)], [("pipe", [])], [3], [4]⟩
      ⟨"q", "p"⟩ ⟨3, true⟩).2.meshes = [3] ∧
    (add_renderable_for_material
      ⟨7, [(⟨"m", "p"⟩, ⟨"pipe", 0⟩)], [("pipe", [])], [3], [4]⟩
      ⟨"q", "p"⟩ ⟨3, true⟩).2.proc_meshes = [4] :=
  missing_material_returns_sentinel
    ⟨7, [(⟨"m", "p"⟩, ⟨"pipe", 0⟩)], [("pipe", [])], [3], [4]⟩
    ⟨"q", "p"⟩ ⟨3, true⟩ (by decide)

end Renderables

end Nova
